import Mathlib

set_option autoImplicit false

/-!
Verification of the bit-allocation and frame-encoding core of the FABulous
fabric generator (`fabric_generator/fabric_gen.py`).

The Python functions under scrutiny are embedded shallowly below:

* `genTileSwitchMatrix` (switch-matrix hardware emission and config-bit
  allocation, lines 249-419),
* `genBitstreamSpec` (frame `encodeDict` construction and feature-table
  building, lines 4230-4365),
* `generateConfigMem` (config-mem mapping validation and latch
  instantiation, lines 95-246),
* `genFabricObject` (wire cascading, lines 2648-2728) and
  `genVPRModelRRGraph` (diagonal-wire check, lines 3736-3741).

Machine integers of the source are modelled as `Nat`/`Int`, Python strings
as `String` or `List Char`, fallible code as `Except`/`Option`.
-/

namespace FABulous

/-! ## Definitions -/

/-! ### Binary formatting helpers

`genBitstreamSpec` renders a multiplexer select value with the Python
format string `f"{pip_index:0{controlWidth}b}"`: the minimal MSB-first
binary representation, left padded with zeros to the requested width.
-/

/-- One binary digit rendered as the character the Python format produces. -/
def bitChar (n : Nat) : Char := if n % 2 = 1 then '1' else '0'

/-- Binary digits of a number, least significant digit first; 0 has no digits. -/
def lsbDigits (n : Nat) : List Char :=
  if h : n = 0 then [] else bitChar n :: lsbDigits (n / 2)
termination_by n
decreasing_by exact Nat.div_lt_self (Nat.pos_of_ne_zero h) (by decide)

/-- Embeds the Python format expression `f"{v:0{w}b}"` used at line 4336 of
`fabric_gen.py`: minimal MSB-first binary digits of `v` (with `"0"` for 0),
left padded with `'0'` to width `w`. -/
def pyBinFormat (w v : Nat) : List Char :=
  let s := if v = 0 then ['0'] else (lsbDigits v).reverse
  List.replicate (w - s.length) '0' ++ s

/-! ### genTileSwitchMatrix (fabric_gen.py lines 249-419)

A destination port of the switch matrix is one key `k` of the fan-in map
`connections`; its fan-in list `connections[k]` holds the candidate source
names in adjacency-table declaration order.
-/

/-- Embeds the config-bit counting loop of `genTileSwitchMatrix` (lines
255-260): only destinations with fan-in size at least 2 consume bits, namely
`int(math.ceil(math.log2(muxSize)))` each, modelled as `Nat.clog 2`. -/
def switchMatrixConfigBits (connections : List (String × List String)) : Nat :=
  connections.foldl
    (fun acc c => if 2 ≤ c.2.length then acc + Nat.clog 2 c.2.length else acc) 0

/-- Hardware emitted by `genTileSwitchMatrix` for one destination port. -/
inductive MuxAction where
  | warnUnused
  | assignConst (b : Nat)
  | passThrough (source : String)
  | mux (portList : List String) (widthBits : Nat)
  deriving Repr, DecidableEq

/-- Embeds lines 360-398 of `genTileSwitchMatrix`: fan-in 0 only warns and
continues; fan-in 1 is a direct assignment (constant for the literal sources
`"0"` and `"1"`); fan-in at least 2 instantiates a multiplexer over
`reversed(connections[k])` consuming `ceil(log2(muxSize))` config bits. -/
def muxHwAction (k : String) (fanIn : List String) : MuxAction :=
  match fanIn with
  | [] => .warnUnused
  | [s] =>
      if s = "0" then .assignConst 0
      else if s = "1" then .assignConst 1
      else .passThrough s
  | _ => .mux fanIn.reverse (Nat.clog 2 fanIn.length)

/-- Modelled from the spec: `addMux` lives in `code_generation_VHDL` /
`code_generation_Verilog`, which are not part of src.  Per the select-value
contract of the spec and the comment at lines 386-388 of `fabric_gen.py`, the
writer concatenates the passed port list into the multiplexer input vector
with the first passed element at the top index, and the output is driven by
the input whose index equals the select value. -/
def writerMuxOut (portList : List String) (sel : Nat) : Option String :=
  portList.get? (portList.length - 1 - sel)

/-- Embeds line 395 of `genTileSwitchMatrix`: the port list handed to the
writer is `reversed(connections[k])`. -/
def hwMuxSelectedSource (fanIn : List String) (sel : Nat) : Option String :=
  writerMuxOut fanIn.reverse sel

/-! ### genBitstreamSpec: switch-matrix pip features (lines 4312-4347)

In the raw adjacency CSV read by `genBitstreamSpec`, the header row holds the
candidate source names (`sources = csvFile[0]`) and each following row one
destination (`sinks`); the fan-in list of a destination is the sequence of
sources whose cell in that row is `"1"`, in column order.
-/

/-- Embeds the pip naming of line 4327, `".".join((sources[x+1], sinks[y+1]))`:
candidate source name first, then the destination (row) name. -/
def pipName (source dest : String) : String := source ++ "." ++ dest

/-- Embeds lines 4321-4328: the per-row pip list, built in column order and
then flipped by `muxList.reverse()`. -/
def muxPipList (dest : String) (fanIn : List String) : List String :=
  (fanIn.map (fun s => pipName s dest)).reverse

/-- Embeds line 4330: `controlWidth = int(numpy.ceil(numpy.log2(pipCount)))`. -/
def controlWidth (pipCount : Nat) : Nat := Nat.clog 2 pipCount

/-- Embeds lines 4336-4346: the select-field bits recorded for one pip.  The
control value string is traversed reversed (LSB first), character number
`tempOffset` landing at logical bit `curBitOffset + tempOffset`. -/
def pipBits (off w pipIndex : Nat) : List (Nat × Char) :=
  ((pyBinFormat w pipIndex).reverse.enum).map (fun p => (off + p.1, p.2))

/-- Embeds the `for i, pip in enumerate(muxList)` loop of lines 4329-4346 for
one destination row: with fewer than two candidates every pip receives an
empty bit map; otherwise the pip at position `i` of the reversed list encodes
select value `pipCount - i - 1` starting at logical offset `off`. -/
def buildMuxFeature (dest : String) (fanIn : List String) (pipCount off : Nat) :
    List (String × List (Nat × Char)) :=
  (muxPipList dest fanIn).enum.map (fun p =>
    if pipCount < 2 then (p.2, [])
    else (p.2, pipBits off (controlWidth pipCount) (pipCount - p.1 - 1)))

/-! ### genBitstreamSpec: frame mask to encodeDict (lines 4255-4277)

Each processed row of the config-mem CSV gives a frame index, a used-bits
mask and a list `configEncode` of logical bit indices.  For every mask
position `i` (0-indexed from the left, the MSB) holding a used bit, the next
logical index is popped and given a physical position.
-/

/-- Recursion behind `frameAssignPairs`; `i` is the current mask position.
When `configEncode` runs out while used mask bits remain the Python source
would raise an IndexError, so no further pair is produced. -/
def frameAssignGo (frameIndex : Nat) : List Char → Nat → List Nat → List (Nat × Int)
  | [], _, _ => []
  | c :: cs, i, rs =>
      if c ≠ '0' then
        match rs with
        | [] => []
        | r :: rs2 =>
            (r, ((31 : Int) - (i : Int)) + 32 * (frameIndex : Int))
              :: frameAssignGo frameIndex cs (i + 1) rs2
      else frameAssignGo frameIndex cs (i + 1) rs

/-- Embeds lines 4270-4276 of `genBitstreamSpec` for one frame: the produced
(logical index, physical index) pairs, with the physical index computed by
the source expression `(31 - i) + (32 * int(line[1]))` — the constants 31
and 32 are hardcoded in the source. -/
def frameAssignPairs (frameIndex : Nat) (mask : List Char) (ranges : List Nat) :
    List (Nat × Int) :=
  frameAssignGo frameIndex mask 0 ranges

/-- Modelled from the spec: the physical-index formula
`frameIndex * frameBitsPerRow + (frameBitsPerRow - 1 - i)` stated in the
frame-encoder section, parameterized by `frameBitsPerRow`. -/
def specFrameAssignGo (fbpr frameIndex : Nat) :
    List Char → Nat → List Nat → List (Nat × Int)
  | [], _, _ => []
  | c :: cs, i, rs =>
      if c ≠ '0' then
        match rs with
        | [] => []
        | r :: rs2 =>
            (r, ((fbpr : Int) - 1 - (i : Int)) + (fbpr : Int) * (frameIndex : Int))
              :: specFrameAssignGo fbpr frameIndex cs (i + 1) rs2
      else specFrameAssignGo fbpr frameIndex cs (i + 1) rs

/-- Modelled from the spec: per-frame (logical, physical) assignment under the
general formula, for comparison with the hardcoded `frameAssignPairs`. -/
def specFrameAssignPairs (fbpr frameIndex : Nat) (mask : List Char) (ranges : List Nat) :
    List (Nat × Int) :=
  specFrameAssignGo fbpr frameIndex mask 0 ranges

/-- Embeds line 4257: `encodeDict = [-1 for i in range(FrameBitsPerRow*MaxFramesPerCol)]`. -/
def encodeDictInit (fbpr mfpc : Nat) : List Int := List.replicate (fbpr * mfpc) (-1)

/-- Applies the per-frame assignments to the dictionary array in order. -/
def applyAssigns (d : List Int) (pairs : List (Nat × Int)) : List Int :=
  pairs.foldl (fun acc p => acc.set p.1 p.2) d

/-- Embeds the `for line in configList` loop of lines 4258-4276 over a whole
config-mem file: each frame writes its pairs into `encodeDict`. -/
def buildEncodeDict (fbpr mfpc : Nat) (frames : List (Nat × List Char × List Nat)) :
    List Int :=
  frames.foldl (fun d f => applyAssigns d (frameAssignPairs f.1 f.2.1 f.2.2))
    (encodeDictInit fbpr mfpc)

/-- Embeds a Python read `encodeDict[logical]` (lines 4303-4304 and
4342-4343): `none` models the IndexError raised for an index outside the
array. -/
def encodeLookup (d : List Int) (logical : Nat) : Option Int := d.get? logical

/-- Embeds lines 4301-4304 of `genBitstreamSpec`: a bel feature entry is the
one-pair map `{encodeDict[featureOffset + curBitOffset]: "1"}`; the physical
key is read from `encodeDict` without any check. -/
def belFeatureEntry (d : List Int) (logical : Nat) : Option (Int × Char) :=
  (encodeLookup d logical).map (fun p => (p, '1'))

/-! ### generateConfigMem: latch instantiation (lines 229-243) -/

/-- Recursion behind `configMemLatches`; `k` is the mask position. -/
def configMemLatchGo (fbpr frameIndex : Nat) :
    List Char → Nat → List Int → List (Int × Nat × Nat)
  | [], _, _ => []
  | c :: cs, k, order =>
      if c = '1' then
        match order with
        | [] => []
        | b :: order2 =>
            (b, frameIndex, fbpr - 1 - k) :: configMemLatchGo fbpr frameIndex cs (k + 1) order2
      else configMemLatchGo fbpr frameIndex cs (k + 1) order

/-- Embeds lines 234-243 of `generateConfigMem` for one used frame: for every
`'1'` of the mask at position `k`, a latch is instantiated at frame bit
`FrameBitsPerRow-1-k` of frame `frameIndex`, driving the next config bit of
`allConfigBitsOrder`.  Each element is (logical config bit, frame index,
bit position inside the frame). -/
def configMemLatches (fbpr frameIndex : Nat) (mask : List Char) (order : List Int) :
    List (Int × Nat × Nat) :=
  configMemLatchGo fbpr frameIndex mask 0 order

/-- Modelled from the spec: the absolute physical bit index of frame bit
`pos` of frame `frameIndex` in the frame-addressed numbering. -/
def latchPhysicalIndex (fbpr frameIndex pos : Nat) : Nat := frameIndex * fbpr + pos

/-! ### generateConfigMem: mapping-file validation (lines 95-227) -/

/-- Counts characters equal to `'1'`, embedding `used_bits_mask.count("1")`. -/
def onesCount (mask : List Char) : Nat := mask.count '1'

/-- One row of a config-mem mapping file; only the columns the validation
reads are modelled (frame_name, used_bits_mask, ConfigBits_ranges). -/
structure CMEntry where
  frameName : String
  mask : List Char
  ranges : List Char
  deriving Repr, DecidableEq

/-- Embeds lines 127-129: `used_bits_mask.replace("_", "")`. -/
def stripUnderscores (mask : List Char) : List Char := mask.filter (fun c => c != '_')

/-- Embeds Python `str.split(sep)` for a one-character separator: the empty
string yields one empty piece, separators at the ends yield empty pieces. -/
def splitOnCh (sep : Char) : List Char → List (List Char)
  | [] => [[]]
  | c :: cs =>
      let r := splitOnCh sep cs
      if c = sep then [] :: r
      else
        match r with
        | h :: t => (c :: h) :: t
        | [] => [[c]]

/-- Embeds line 198: `item.replace(" ", "").replace("\t", "")`. -/
def stripBlanks (l : List Char) : List Char :=
  l.filter (fun c => c != ' ' && c != '\t')

/-- Blank characters handled by the `int()` model below. -/
def isBlankChar (c : Char) : Bool := c == ' ' || c == '\t'

/-- Removes blanks from both ends of a character list. -/
def trimBlanks (l : List Char) : List Char :=
  ((l.dropWhile isBlankChar).reverse.dropWhile isBlankChar).reverse

/-- Embeds Python `str.isdigit()` for the ASCII inputs at hand: nonempty and
all decimal digits. -/
def isDigitsChars (l : List Char) : Bool := !l.isEmpty && l.all Char.isDigit

/-- Decimal value of a digit string. -/
def digitsVal (l : List Char) : Nat :=
  l.foldl (fun a c => 10 * a + (c.toNat - '0'.toNat)) 0

/-- Embeds the Python builtin `int()` as invoked at line 201: surrounding
blanks are ignored, an optional sign precedes decimal digits, anything else
raises ValueError (`none`). -/
def pyInt? (l : List Char) : Option Int :=
  match trimBlanks l with
  | '-' :: ds => if isDigitsChars ds then some (-(digitsVal ds : Int)) else none
  | '+' :: ds => if isDigitsChars ds then some ((digitsVal ds : Int)) else none
  | ds => if isDigitsChars ds then some ((digitsVal ds : Int)) else none

/-- Embeds the Python substring test `needle in hay`. -/
def containsSeq (needle : List Char) : List Char → Bool
  | [] => needle.isEmpty
  | c :: t => needle.isPrefixOf (c :: t) || containsSeq needle t

/-- The character list of the literal `"NULL"` tested at line 218. -/
def nullChars : List Char := ['N', 'U', 'L', 'L']

/-- Ascending integer list `[lo, lo+1, …, hi]`, embedding `range(lo, hi+1)`. -/
def intRange (lo hi : Int) : List Int :=
  (List.range ((hi - lo + 1).toNat)).map (fun n => lo + n)

/-- Embeds the duplicate check of lines 208-212: each expanded index is
appended to `configBitsOrder` only if not already present, otherwise the
source raises ValueError. -/
def insertClaims (acc : List Int) : List Int → Except String (List Int)
  | [] => .ok acc
  | n :: ns =>
      if n ∈ acc then .error "Configuration bit index already allocated"
      else insertClaims (acc ++ [n]) ns

/-- Embeds the `for item in entry["ConfigBits_ranges"].split(";")` loop of
lines 197-222, including the slip at line 200 where the WHOLE ranges string
(not the current item) is split on the colon: `whole` stays fixed while
`items` walks the semicolon pieces, `acc` is `configBitsOrder`. -/
def parseRangesItems (whole : List Char) :
    List (List Char) → List Int → Except String (List Int)
  | [], acc => .ok acc
  | item :: rest, acc =>
      let it := stripBlanks item
      if it.contains ':' then
        match splitOnCh ':' whole with
        | [l, r] =>
            match pyInt? l, pyInt? r with
            | some lv, some rv =>
                let nums := if rv < lv then (intRange rv lv).reverse else intRange lv rv
                (match insertClaims acc nums with
                 | .error msg => .error msg
                 | .ok acc2 => parseRangesItems whole rest acc2)
            | _, _ => .error "invalid literal for int"
        | _ => .error "values to unpack"
      else if isDigitsChars it then
        if (digitsVal it : Int) ∈ acc then
          .error "Configuration bit index already allocated"
        else parseRangesItems whole rest (acc ++ [(digitsVal it : Int)])
      else if containsSeq nullChars it then parseRangesItems whole rest acc
      else .error "not a valid format"

/-- Embeds the ConfigBits_ranges column processing for one frame (lines
196-222): `configBitsOrder` starts empty for every frame. -/
def parseConfigBitsRanges (ranges : List Char) : Except String (List Int) :=
  parseRangesItems ranges (splitOnCh ';' ranges) []

/-- Embeds the mask validation loop of lines 139-147: too many ones or a
mask of the wrong length raises for the first offending frame, otherwise the
used-bit counts accumulate. -/
def checkFrames (fbpr : Nat) : List CMEntry → Except String Nat
  | [] => .ok 0
  | e :: rest =>
      if fbpr < onesCount e.mask then .error "to many 1-elements in bitmask"
      else if e.mask.length ≠ fbpr then .error "too long or short bitmask"
      else
        match checkFrames fbpr rest with
        | .error msg => .error msg
        | .ok t => .ok (onesCount e.mask + t)

/-- Embeds the per-frame ranges processing of lines 188-227: the ranges
column is parsed (duplicates inside the frame are fatal) and must list as
many indices as the mask has ones; the per-frame lists concatenate into
`allConfigBitsOrder`. -/
def processEntries : List CMEntry → Except String (List Int)
  | [] => .ok []
  | e :: rest =>
      match parseConfigBitsRanges e.ranges with
      | .error msg => .error msg
      | .ok order =>
          if order.length ≠ onesCount e.mask then
            .error "ConfigBitsOrder definition miss match"
          else
            match processEntries rest with
            | .error msg => .error msg
            | .ok os => .ok (order ++ os)

/-- Validation pipeline of `generateConfigMem` after the underscore
stripping of lines 127-129: require exactly `MaxFramesPerCol` rows (line
133), check every mask (lines 139-147), compare the total used-bit count
with the tile's `globalConfigBits` (line 149), then parse every
ConfigBits_ranges column (lines 188-227). -/
def configMemCheckStripped (fbpr mfpc gcb : Nat) (mapping : List CMEntry) :
    Except String (List Int) :=
  if mapping.length ≠ mfpc then .error "entries do not match MaxFramesPerCol"
  else
    match checkFrames fbpr mapping with
    | .error msg => .error msg
    | .ok total =>
        if total ≠ gcb then .error "bitmask miss match"
        else processEntries mapping

/-- Embeds the validation of `generateConfigMem` (lines 127-227) on the raw
mapping file: underscores are first removed from every mask, then the
checks run.  On success the returned list is `allConfigBitsOrder`; every
`raise` of the source is an `Except.error`. -/
def generateConfigMemCheck (fbpr mfpc gcb : Nat) (raw : List CMEntry) :
    Except String (List Int) :=
  configMemCheckStripped fbpr mfpc gcb
    (raw.map (fun e => { e with mask := stripUnderscores e.mask }))

/-! ### Mutation of the tile object (claims about determinism) -/

/-- Per-tile state touched by the generators; the `Tile` class lives in
`fabric.py`, which is not part of src, so only the field the claims concern
is modelled. -/
structure TileModel where
  name : String
  globalConfigBits : Nat
  deriving Repr, DecidableEq

/-- Embeds lines 99-104 of `generateConfigMem`: the switch-matrix bit count
read back from the matrix-file comment is ADDED to the tile,
`tile.globalConfigBits += configBit`. -/
def generateConfigMemAccumulate (t : TileModel) (matrixFileBits : Nat) : TileModel :=
  { t with globalConfigBits := t.globalConfigBits + matrixFileBits }

/-- Embeds line 260 of `genTileSwitchMatrix`:
`tile.globalConfigBits = globalConfigBitsCounter`, a plain assignment. -/
def genTileSwitchMatrixSetBits (t : TileModel)
    (connections : List (String × List String)) : TileModel :=
  { t with globalConfigBits := switchMatrixConfigBits connections }

/-! ### genFabricObject wire resolution (lines 2648-2728) -/

/-- One entry of `wireTextList`; the offsets are decimal strings in the
source dictionaries and are modelled as integers. -/
structure FWire where
  direction : String
  source : String
  xoffset : Int
  yoffset : Int
  destination : String
  wireCount : Nat
  deriving Repr, DecidableEq

/-- One entry of `tempAtomicWires`. -/
structure AtomicWire where
  direction : String
  source : String
  xoffset : Int
  yoffset : Int
  destination : String
  sourceTile : String
  destTile : String
  deriving Repr, DecidableEq

/-- Embeds `"NULL" in wire.values()` for the fields that can hold `"NULL"`. -/
def wireHasNull (w : FWire) : Bool := w.source == "NULL" || w.destination == "NULL"

/-- Embeds the index arithmetic of the cascading loop (lines 2667-2673):
expanded bundle wire `i` continues at `i + wireCount*(m-1)` when freshly
launched (`i < wireCount`) and at `i - wireCount` otherwise. -/
def cascStep (wc m i : Nat) : Nat := if i < wc then i + wc * (m - 1) else i - wc

/-- Embeds the cascading loop body of lines 2667-2677 (and its three mirrored
copies for the other signs and the y axis): for every `i < wireCount * m`
one atomic unit segment is produced, preceded for `i ≥ wireCount` by a
pass-through JUMP wire on the emitting tile. -/
def cascadeSegments (dir src dst : String) (segX segY : Int) (wc m : Nat)
    (tileLoc cLoc : String) : List AtomicWire :=
  (List.range (wc * m)).flatMap (fun i =>
    (if i < wc then ([] : List AtomicWire)
     else [{ direction := "JUMP", source := dst ++ toString i, xoffset := 0,
             yoffset := 0, destination := src ++ toString i,
             sourceTile := tileLoc, destTile := tileLoc }])
    ++ [{ direction := dir, source := src ++ toString i, xoffset := segX,
          yoffset := segY, destination := dst ++ toString (cascStep wc m i),
          sourceTile := tileLoc, destTile := cLoc }])

/-- Outcome of the wire classification for one `wireTextList` entry. -/
inductive WireResolution where
  | normal (w : FWire)
  | cascaded (atomics : List AtomicWire)
  | dropped
  | nullHandling
  deriving Repr, DecidableEq

/-- Embeds the wire classification of lines 2654-2728: unit-offset wires
without `"NULL"` go to the tile's `wires` list untouched; longer non-NULL
wires cascade along the x axis whenever `xoffset` is nonzero (each segment
keeping the full `yoffset`), else along the y axis; the remaining branches
(reachable only with offset magnitude 1 in the chosen axis and a larger one
in the other) fall through with no effect; wires containing `"NULL"` are
handled by the dangling-wire code from line 2729 on, which no claim
concerns. -/
def resolveWire (w : FWire) (tileLoc cLoc : String) : WireResolution :=
  if w.xoffset.natAbs ≤ 1 ∧ w.yoffset.natAbs ≤ 1 ∧ ¬ wireHasNull w then .normal w
  else if ¬ wireHasNull w then
    if w.xoffset ≠ 0 then
      if 1 < w.xoffset then
        .cascaded (cascadeSegments w.direction w.source w.destination 1 w.yoffset
          w.wireCount w.xoffset.natAbs tileLoc cLoc)
      else if w.xoffset < -1 then
        .cascaded (cascadeSegments w.direction w.source w.destination (-1) w.yoffset
          w.wireCount w.xoffset.natAbs tileLoc cLoc)
      else .dropped
    else if w.yoffset ≠ 0 then
      if 1 < w.yoffset then
        .cascaded (cascadeSegments w.direction w.source w.destination w.xoffset 1
          w.wireCount w.yoffset.natAbs tileLoc cLoc)
      else if w.yoffset < -1 then
        .cascaded (cascadeSegments w.direction w.source w.destination w.xoffset (-1)
          w.wireCount w.yoffset.natAbs tileLoc cLoc)
      else .dropped
    else .dropped
  else .nullHandling

/-- Arrival index of expanded bundle wire `j` after `k` unit segments of the
cascade chain. -/
def chainIdx (wc m j : Nat) : Nat → Nat
  | 0 => j
  | k + 1 => cascStep wc m (chainIdx wc m j k)

/-- Embeds lines 3736-3741 of `genVPRModelRRGraph`: a tile wire with nonzero
offset in both axes raises before any routing node is emitted. -/
def vprWireDiagonalCheck (w : FWire) : Except String Unit :=
  if w.yoffset ≠ 0 ∧ w.xoffset ≠ 0 then
    .error "Diagonal wires not currently supported for VPR routing resource model"
  else .ok ()

/-! ## Helper theorems -/

theorem lsbDigits_zero : lsbDigits 0 = [] := by
  rw [lsbDigits]; rfl

theorem lsbDigits_ne_zero {n : Nat} (h : n ≠ 0) :
    lsbDigits n = bitChar n :: lsbDigits (n / 2) := by
  rw [lsbDigits]; simp [h]

theorem lsbDigits_get? :
    ∀ n t : Nat, t < (lsbDigits n).length →
      (lsbDigits n).get? t = some (bitChar (n / 2 ^ t)) := by
  intro n
  induction n using Nat.strong_induction_on with
  | _ n ih =>
    intro t ht
    by_cases hn : n = 0
    · subst hn; simp [lsbDigits_zero] at ht
    · rw [lsbDigits_ne_zero hn] at ht ⊢
      cases t with
      | zero => simp
      | succ t =>
        simp only [List.length_cons, Nat.succ_lt_succ_iff] at ht
        have hlt : n / 2 < n := Nat.div_lt_self (Nat.pos_of_ne_zero hn) (by decide)
        have := ih (n / 2) hlt t ht
        simp only [List.get?_cons_succ, this]
        congr 2
        rw [Nat.div_div_eq_div_mul]
        congr 1
        rw [Nat.pow_succ]
        exact (Nat.mul_comm _ _)

theorem lsbDigits_lt : ∀ n : Nat, n < 2 ^ (lsbDigits n).length := by
  intro n
  induction n using Nat.strong_induction_on with
  | _ n ih =>
    by_cases hn : n = 0
    · subst hn; simp [lsbDigits_zero]
    · rw [lsbDigits_ne_zero hn]
      have hlt : n / 2 < n := Nat.div_lt_self (Nat.pos_of_ne_zero hn) (by decide)
      have h2 : n / 2 < 2 ^ (lsbDigits (n / 2)).length := ih (n / 2) hlt
      have hmod : n % 2 < 2 := Nat.mod_lt _ (by decide)
      calc n = 2 * (n / 2) + n % 2 := by rw [Nat.div_add_mod]
        _ < 2 * (n / 2) + 2 := by omega
        _ ≤ 2 * (2 ^ (lsbDigits (n / 2)).length - 1) + 2 := by
              have : n / 2 ≤ 2 ^ (lsbDigits (n / 2)).length - 1 := by omega
              omega
        _ ≤ 2 ^ (List.length (bitChar n :: lsbDigits (n / 2))) := by
              have hpos : 1 ≤ 2 ^ (lsbDigits (n / 2)).length := Nat.one_le_two_pow
              simp only [List.length_cons]
              rw [Nat.pow_succ]
              omega

theorem lsbDigits_min : ∀ n : Nat, n ≠ 0 → 2 ^ ((lsbDigits n).length - 1) ≤ n := by
  intro n
  induction n using Nat.strong_induction_on with
  | _ n ih =>
    intro hn
    rw [lsbDigits_ne_zero hn]
    by_cases h2 : n / 2 = 0
    · have : n = 1 := by omega
      subst this
      simp [lsbDigits_zero, h2]
    · have hlt : n / 2 < n := Nat.div_lt_self (Nat.pos_of_ne_zero hn) (by decide)
      have hmin := ih (n / 2) hlt h2
      have hlen : 1 ≤ (lsbDigits (n / 2)).length := by
        rw [lsbDigits_ne_zero h2]; simp
      simp only [List.length_cons]
      have hstep : 2 ^ (Nat.succ (lsbDigits (n / 2)).length - 1)
          = 2 * 2 ^ ((lsbDigits (n / 2)).length - 1) := by
        have : Nat.succ (lsbDigits (n / 2)).length - 1
            = ((lsbDigits (n / 2)).length - 1) + 1 := by omega
        rw [this, Nat.pow_succ]
        exact Nat.mul_comm _ _
      rw [hstep]
      have hmdl : 2 * (n / 2) ≤ n := by omega
      calc 2 * 2 ^ ((lsbDigits (n / 2)).length - 1) ≤ 2 * (n / 2) := by omega
        _ ≤ n := hmdl

theorem lsbDigits_length_le {v w : Nat} (hv : v ≠ 0) (h : v < 2 ^ w) :
    (lsbDigits v).length ≤ w := by
  by_contra hgt
  push_neg at hgt
  have hmin := lsbDigits_min v hv
  have : 2 ^ w ≤ 2 ^ ((lsbDigits v).length - 1) := by
    apply Nat.pow_le_pow_right (by decide)
    omega
  omega

theorem pyBinFormat_length {w v : Nat} (hw : 1 ≤ w) (h : v < 2 ^ w) :
    (pyBinFormat w v).length = w := by
  unfold pyBinFormat
  by_cases hv : v = 0
  · subst hv; simp; omega
  · have hle := lsbDigits_length_le hv h
    simp [hv]
    omega

theorem pyBinFormat_zero {w : Nat} (hw : 1 ≤ w) :
    pyBinFormat w 0 = List.replicate w '0' := by
  have hwq : w = (w - List.length ['0']) + 1 := by simp; omega
  simp only [pyBinFormat, eq_self_iff_true, if_true]
  conv_rhs => rw [hwq]
  rw [List.replicate_succ']

theorem pyBinFormat_ne_zero {w v : Nat} (hv : v ≠ 0) :
    pyBinFormat w v
      = List.replicate (w - (lsbDigits v).reverse.length) '0' ++ (lsbDigits v).reverse := by
  simp only [pyBinFormat, if_neg hv]

theorem pyBinFormat_reverse_get? {w v : Nat} (hw : 1 ≤ w) (h : v < 2 ^ w) :
    ∀ t : Nat, t < w →
      (pyBinFormat w v).reverse.get? t = some (bitChar (v / 2 ^ t)) := by
  intro t ht
  by_cases hv : v = 0
  · subst hv
    rw [pyBinFormat_zero hw, List.reverse_replicate]
    rw [List.get?_eq_getElem?, List.getElem?_replicate, if_pos ht]
    simp [bitChar, Nat.zero_div]
  · have hle := lsbDigits_length_le hv h
    have hvlt := lsbDigits_lt v
    rw [pyBinFormat_ne_zero hv]
    rw [List.reverse_append, List.reverse_reverse, List.reverse_replicate]
    simp only [List.length_reverse]
    rw [List.get?_eq_getElem?, List.getElem?_append]
    by_cases htl : t < (lsbDigits v).length
    · rw [if_pos htl, ← List.get?_eq_getElem?]
      exact lsbDigits_get? v t htl
    · push_neg at htl
      rw [if_neg (by omega), List.getElem?_replicate]
      rw [if_pos (by omega)]
      have hdiv : v / 2 ^ t = 0 := by
        apply Nat.div_eq_of_lt
        calc v < 2 ^ (lsbDigits v).length := hvlt
          _ ≤ 2 ^ t := Nat.pow_le_pow_right (by decide) htl
      rw [hdiv]
      simp [bitChar]

theorem hwMuxSelectedSource_eq {fanIn : List String} {sel : Nat}
    (h : sel < fanIn.length) :
    hwMuxSelectedSource fanIn sel = fanIn.get? sel := by
  unfold hwMuxSelectedSource writerMuxOut
  rw [List.length_reverse]
  rw [List.get?_reverse (by omega : fanIn.length - 1 - sel < fanIn.length)]
  congr 1
  omega

theorem pipBits_eq {off w v : Nat} (hw : 1 ≤ w) (h : v < 2 ^ w) :
    pipBits off w v = (List.range w).map (fun t => (off + t, bitChar (v / 2 ^ t))) := by
  apply List.ext_get?
  intro t
  simp only [pipBits, List.get?_map, List.get?_enum]
  by_cases ht : t < w
  · rw [pyBinFormat_reverse_get? hw h t ht]
    rw [List.get?_eq_getElem?, List.getElem?_range ht]
    rfl
  · have h1 : (pyBinFormat w v).reverse.length = w := by
      rw [List.length_reverse]; exact pyBinFormat_length hw h
    rw [List.get?_eq_getElem?, List.getElem?_eq_none (by omega)]
    rw [List.get?_eq_getElem?, List.getElem?_eq_none (by simp; omega)]
    rfl

theorem muxPipList_get? {dest : String} {fanIn : List String} {k : Nat} {s : String}
    (hk : k < fanIn.length) (hs : fanIn.get? k = some s) :
    (muxPipList dest fanIn).get? (fanIn.length - 1 - k) = some (pipName s dest) := by
  unfold muxPipList
  have hlen : (fanIn.map (fun s => pipName s dest)).length = fanIn.length := by simp
  rw [List.get?_reverse (by omega : fanIn.length - 1 - k
      < (fanIn.map (fun s => pipName s dest)).length)]
  rw [hlen]
  have hidx : fanIn.length - 1 - (fanIn.length - 1 - k) = k := by omega
  rw [hidx, List.get?_map, hs]
  rfl

theorem buildMuxFeature_get? {dest : String} {fanIn : List String} {k off : Nat}
    {s : String} (h2 : 2 ≤ fanIn.length) (hk : k < fanIn.length)
    (hs : fanIn.get? k = some s) :
    (buildMuxFeature dest fanIn fanIn.length off).get? (fanIn.length - 1 - k)
      = some (pipName s dest, pipBits off (controlWidth fanIn.length) k) := by
  unfold buildMuxFeature
  rw [List.get?_map, List.get?_enum, muxPipList_get? hk hs]
  simp only [Option.map_some']
  rw [if_neg (by omega)]
  have : fanIn.length - (fanIn.length - 1 - k) - 1 = k := by omega
  rw [this]

theorem buildMuxFeature_map_fst (dest : String) (fanIn : List String) (pc off : Nat) :
    (buildMuxFeature dest fanIn pc off).map Prod.fst = muxPipList dest fanIn := by
  unfold buildMuxFeature
  rw [List.map_map]
  have hfun : (Prod.fst ∘ fun p : Nat × String =>
      if pc < 2 then (p.2, ([] : List (Nat × Char)))
      else (p.2, pipBits off (controlWidth pc) (pc - p.1 - 1)))
        = Prod.snd := by
    funext p
    by_cases h : pc < 2 <;> simp [h]
  rw [hfun, List.enum_map_snd]

theorem pipName_injective (dest : String) :
    Function.Injective (fun s => pipName s dest) := by
  intro a b hab
  simp only [pipName] at hab
  have hd := congrArg String.data hab
  simp only [String.data_append] at hd
  have h1 := List.append_cancel_right hd
  have h2 := List.append_cancel_right h1
  exact String.ext h2

theorem switchMatrixConfigBits_aux (l : List (String × List String)) :
    ∀ a : Nat,
      l.foldl (fun acc c => if 2 ≤ c.2.length then acc + Nat.clog 2 c.2.length else acc) a
        = a + ((l.filter (fun c => 2 ≤ c.2.length)).map
            (fun c => Nat.clog 2 c.2.length)).sum := by
  induction l with
  | nil => intro a; simp
  | cons c rest ih =>
    intro a
    by_cases h : 2 ≤ c.2.length
    · simp only [List.foldl_cons, if_pos h, List.filter_cons, ih]
      simp [h]
      omega
    · simp only [List.foldl_cons, if_neg h, List.filter_cons, ih]
      simp [h]

/-! ## Claim theorems -/

/-- C1: select-value round trip.  For a switch-matrix destination with
fan-in list `[s0, …, s(N-1)]` in adjacency-table declaration order, `N ≥ 2`
and any `k < N`: the hardware multiplexer emitted by `genTileSwitchMatrix`
outputs source `sk` when the select field equals `k`, and the feature-table
entry `genBitstreamSpec` produces for the pip connecting `sk` to the
destination carries exactly the select-field bits of the binary encoding of
`k` — bit `t` of `k` at logical offset `off + t`, MSB at the top of the
`ceil(log2(N))`-bit field.  The two consumers agree on the same `k ↔ sk`
correspondence. -/
theorem selectValue_roundTrip (dest : String) (fanIn : List String) (k off : Nat)
    (s : String) (h2 : 2 ≤ fanIn.length) (hk : k < fanIn.length)
    (hs : fanIn.get? k = some s) :
    hwMuxSelectedSource fanIn k = some s ∧
    (buildMuxFeature dest fanIn fanIn.length off).get? (fanIn.length - 1 - k)
      = some (pipName s dest,
          (List.range (controlWidth fanIn.length)).map
            (fun t => (off + t, bitChar (k / 2 ^ t)))) := by
  have hw1 : 1 ≤ controlWidth fanIn.length := Nat.clog_pos (by decide) h2
  have hk2 : k < 2 ^ controlWidth fanIn.length :=
    lt_of_lt_of_le hk (Nat.le_pow_clog (by decide) _)
  refine ⟨?_, ?_⟩
  · rw [hwMuxSelectedSource_eq hk, hs]
  · rw [buildMuxFeature_get? h2 hk hs, pipBits_eq hw1 hk2]

/-- Witness for C1 at the spec scenario: multiplexer `M1` with fan-in
`["p0","p1","p2"]` and select value 1 resolves to `"p1"` in the hardware,
and the pip entry carries the two select-field bits of binary 1. -/
theorem selectValue_roundTrip_witness :
    hwMuxSelectedSource ["p0", "p1", "p2"] 1 = some "p1" ∧
    (buildMuxFeature "M1" ["p0", "p1", "p2"] (List.length ["p0", "p1", "p2"]) 0).get?
        (List.length ["p0", "p1", "p2"] - 1 - 1)
      = some (pipName "p1" "M1",
          (List.range (controlWidth (List.length ["p0", "p1", "p2"]))).map
            (fun t => (0 + t, bitChar (1 / 2 ^ t)))) :=
  selectValue_roundTrip "M1" ["p0", "p1", "p2"] 1 0 "p1" (by decide) (by decide) rfl

/-- C3 (amended): the allocator of `genTileSwitchMatrix` assigns
`ceil(log2(N))` bits exactly to the destinations with `N ≥ 2` (the tile
total is the sum over those), fan-in 0 yields a warning and continues,
fan-in 1 is a direct pass-through or constant tie-off; in the feature table
a fan-in-1 destination gets a single entry with an empty bit map, while a
fan-in-0 destination has no pip and hence no entry. -/
theorem muxWidthBoundary (connections : List (String × List String))
    (k dest s : String) (off : Nat) :
    switchMatrixConfigBits connections
        = ((connections.filter (fun c => 2 ≤ c.2.length)).map
            (fun c => Nat.clog 2 c.2.length)).sum
    ∧ muxHwAction k [] = MuxAction.warnUnused
    ∧ muxHwAction k [s]
        = (if s = "0" then MuxAction.assignConst 0
           else if s = "1" then MuxAction.assignConst 1
           else MuxAction.passThrough s)
    ∧ buildMuxFeature dest [s] 1 off = [(pipName s dest, [])]
    ∧ buildMuxFeature dest [] 0 off = [] := by
  refine ⟨?_, rfl, rfl, rfl, rfl⟩
  unfold switchMatrixConfigBits
  rw [switchMatrixConfigBits_aux]
  simp

/-- Counterexample for C3 as stated: a destination with fan-in 0 yields NO
feature-table entry at all (there is no pip to name), rather than the
claimed entry with an empty bit map. -/
theorem muxWidthBoundary_counterexample :
    buildMuxFeature "J_EX" [] 0 7 = [] := rfl

/-- C6 (amended): for a multiplexer destination and any candidate source
`sk`, the feature table produced by `genBitstreamSpec` contains exactly one
entry for that pip, and its name is `"<sk>.<destination>"` — source name
first, then the destination, joined by a dot (line 4327). -/
theorem pipNaming_sourceFirst (dest : String) (fanIn : List String)
    (pc off k : Nat) (s : String) (hnd : fanIn.Nodup) (hs : fanIn.get? k = some s) :
    ((buildMuxFeature dest fanIn pc off).map Prod.fst).count (pipName s dest) = 1 := by
  rw [buildMuxFeature_map_fst]
  unfold muxPipList
  rw [List.count_reverse]
  rw [List.count_map_of_injective _ _ (pipName_injective dest)]
  exact List.count_eq_one_of_mem hnd (List.get?_mem hs)

/-- Witness for C6 (amended) at the spec scenario: the pip for source `p1`
of multiplexer `M1` has exactly one feature entry, named `"p1.M1"`. -/
theorem pipNaming_sourceFirst_witness :
    ((buildMuxFeature "M1" ["p0", "p1", "p2"] 3 0).map Prod.fst).count
        (pipName "p1" "M1") = 1 :=
  pipNaming_sourceFirst "M1" ["p0", "p1", "p2"] 3 0 1 "p1" (by decide) rfl

/-- Counterexample for C6 as stated: in the spec scenario the code emits the
pip key `"p1.M1"` (source first, destination second) and no key `"M1.p1"`. -/
theorem pipNaming_counterexample :
    (buildMuxFeature "M1" ["p0", "p1", "p2"] 3 0).map Prod.fst
        = ["p2.M1", "p1.M1", "p0.M1"]
    ∧ ((buildMuxFeature "M1" ["p0", "p1", "p2"] 3 0).map Prod.fst).count "M1.p1" = 0 := by
  exact ⟨rfl, rfl⟩

theorem frameAssignGo_spec32 (frameIndex : Nat) :
    ∀ (mask : List Char) (i : Nat) (rs : List Nat),
      frameAssignGo frameIndex mask i rs = specFrameAssignGo 32 frameIndex mask i rs := by
  intro mask
  induction mask with
  | nil => intro i rs; rfl
  | cons c cs ih =>
    intro i rs
    by_cases h : c ≠ '0'
    · cases rs with
      | nil => simp only [frameAssignGo, specFrameAssignGo, if_pos h]
      | cons r rs2 =>
          simp only [frameAssignGo, specFrameAssignGo, if_pos h]
          rw [ih]
          norm_num
    · simp only [frameAssignGo, specFrameAssignGo, if_neg h, ih]

/-- C2: the frame-encoding assignment of `genBitstreamSpec` hardcodes the
physical index as `(31 - i) + 32 * frameIndex` (lines 4274-4275) instead of
using the `FrameBitsPerRow` fabric parameter.  At `frameBitsPerRow = 16`,
frame 1, mask `"1000000000000000"` and configBitRanges `[0]`, the code
assigns logical bit 0 the physical index 63, while the formula of the claim,
`frameIndex * frameBitsPerRow + (frameBitsPerRow - 1 - i)`, gives 31 — which
is exactly the position of the latch `generateConfigMem` instantiates (frame
1, frame bit 15).  The two computations agree for every input only when
`frameBitsPerRow = 32`. -/
theorem frameEncode_hardcoded :
    frameAssignPairs 1 ('1' :: List.replicate 15 '0') [0] = [(0, 63)]
    ∧ specFrameAssignPairs 16 1 ('1' :: List.replicate 15 '0') [0] = [(0, 31)]
    ∧ configMemLatches 16 1 ('1' :: List.replicate 15 '0') [0] = [(0, 1, 15)]
    ∧ latchPhysicalIndex 16 1 15 = 31
    ∧ (63 : Int) ≠ 31
    ∧ (∀ (frameIndex : Nat) (mask : List Char) (ranges : List Nat),
        frameAssignPairs frameIndex mask ranges
          = specFrameAssignPairs 32 frameIndex mask ranges) := by
  refine ⟨by decide, by decide, by decide, rfl, by decide, ?_⟩
  intro frameIndex mask ranges
  exact frameAssignGo_spec32 frameIndex mask 0 ranges

/-- C5: cross-frame duplicate logical-bit claims are ACCEPTED by
`generateConfigMem`.  With `FrameBitsPerRow = 2`, `MaxFramesPerCol = 2`,
`globalConfigBits = 2` and logical bit 1 claimed by the configBitRanges of
both frames, the validation succeeds and returns `allConfigBitsOrder =
[1, 1]` (two latches drive the same config bit), because `configBitsOrder`
is reset for every frame at line 196 and the duplicate check of lines
208-216 only consults it.  The same index twice within ONE frame does raise,
as the second conjunct shows. -/
theorem crossFrameDuplicate_accepted :
    generateConfigMemCheck 2 2 2
        [⟨"frame0", ['1', '0'], ['1']⟩, ⟨"frame1", ['1', '0'], ['1']⟩]
      = Except.ok [1, 1]
    ∧ generateConfigMemCheck 2 1 2 [⟨"frame0", ['1', '1'], ['1', ';', '1']⟩]
      = Except.error "Configuration bit index already allocated" := by
  exact ⟨rfl, rfl⟩

/-- Counterexample for C9 as stated: `generateConfigMem` run twice on the
same tile object accumulates (`tile.globalConfigBits += configBit`, line
104): the second run yields 6 instead of 3 config bits, and even a single
run leaves the tile changed. -/
theorem configMemRerun_counterexample :
    (generateConfigMemAccumulate
        (generateConfigMemAccumulate ⟨"LUT4AB", 0⟩ 3) 3).globalConfigBits = 6
    ∧ (generateConfigMemAccumulate ⟨"LUT4AB", 0⟩ 3).globalConfigBits = 3
    ∧ generateConfigMemAccumulate ⟨"LUT4AB", 0⟩ 3 ≠ (⟨"LUT4AB", 0⟩ : TileModel) := by
  refine ⟨rfl, rfl, by decide⟩

/-- C9 (amended): `genTileSwitchMatrix` deterministically ASSIGNS the tile's
`globalConfigBits`, so re-running it is idempotent; `generateConfigMem` ADDS
to the field, mutating its input, so re-running it on the same tile object
changes the result whenever the matrix file reports any config bits. -/
theorem allocationDeterminism (t : TileModel)
    (connections : List (String × List String)) (c : Nat) (hc : 0 < c) :
    genTileSwitchMatrixSetBits (genTileSwitchMatrixSetBits t connections) connections
        = genTileSwitchMatrixSetBits t connections
    ∧ generateConfigMemAccumulate (generateConfigMemAccumulate t c) c
        ≠ generateConfigMemAccumulate t c := by
  constructor
  · rfl
  · intro h
    have hf := congrArg TileModel.globalConfigBits h
    simp only [generateConfigMemAccumulate] at hf
    omega

/-- Witness for C9 (amended) on a concrete tile with 3 matrix config bits. -/
theorem allocationDeterminism_witness :
    genTileSwitchMatrixSetBits (genTileSwitchMatrixSetBits ⟨"LUT4AB", 0⟩ []) []
        = genTileSwitchMatrixSetBits ⟨"LUT4AB", 0⟩ []
    ∧ generateConfigMemAccumulate (generateConfigMemAccumulate ⟨"LUT4AB", 0⟩ 3) 3
        ≠ generateConfigMemAccumulate ⟨"LUT4AB", 0⟩ 3 :=
  allocationDeterminism ⟨"LUT4AB", 0⟩ [] 3 (by decide)

theorem checkFrames_ok {fbpr : Nat} :
    ∀ {l : List CMEntry} {t : Nat}, checkFrames fbpr l = Except.ok t →
      t = (l.map (fun e => onesCount e.mask)).sum
        ∧ ∀ e ∈ l, onesCount e.mask ≤ fbpr ∧ e.mask.length = fbpr := by
  intro l
  induction l with
  | nil =>
      intro t h
      simp only [checkFrames] at h
      injection h with h
      subst h
      simp
  | cons e rest ih =>
      intro t h
      simp only [checkFrames] at h
      by_cases h1 : fbpr < onesCount e.mask
      · rw [if_pos h1] at h; exact Except.noConfusion h
      · rw [if_neg h1] at h
        by_cases h2 : e.mask.length ≠ fbpr
        · rw [if_pos h2] at h; exact Except.noConfusion h
        · rw [if_neg h2] at h
          push_neg at h1 h2
          cases hr : checkFrames fbpr rest with
          | error msg => simp only [hr] at h; exact Except.noConfusion h
          | ok t2 =>
              simp only [hr] at h
              obtain ⟨ht2, hall⟩ := ih hr
              injection h with h
              refine ⟨?_, ?_⟩
              · subst h; simp [ht2]
              · intro x hx
                rcases List.mem_cons.mp hx with hx | hx
                · subst hx; exact ⟨h1, h2⟩
                · exact hall x hx

theorem processEntries_ok :
    ∀ {l : List CMEntry} {v : List Int}, processEntries l = Except.ok v →
      ∀ e ∈ l, ∃ o, parseConfigBitsRanges e.ranges = Except.ok o
        ∧ o.length = onesCount e.mask := by
  intro l
  induction l with
  | nil => intro v _ e he; exact absurd he (List.not_mem_nil e)
  | cons e rest ih =>
      intro v h x hx
      simp only [processEntries] at h
      cases hp : parseConfigBitsRanges e.ranges with
      | error msg => simp only [hp] at h; exact Except.noConfusion h
      | ok o =>
          simp only [hp] at h
          by_cases hlen : o.length ≠ onesCount e.mask
          · rw [if_pos hlen] at h; exact Except.noConfusion h
          · rw [if_neg hlen] at h
            push_neg at hlen
            cases hrest : processEntries rest with
            | error msg => simp only [hrest] at h; exact Except.noConfusion h
            | ok os =>
                simp only [hrest] at h
                rcases List.mem_cons.mp hx with hx | hx
                · subst hx; exact ⟨o, hp, hlen⟩
                · exact ih hrest x hx

theorem configMemCheckStripped_ok {fbpr mfpc gcb : Nat} {mapping : List CMEntry}
    {v : List Int} (h : configMemCheckStripped fbpr mfpc gcb mapping = Except.ok v) :
    mapping.length = mfpc
    ∧ (∀ e ∈ mapping, onesCount e.mask ≤ fbpr ∧ e.mask.length = fbpr
        ∧ ∃ o, parseConfigBitsRanges e.ranges = Except.ok o
            ∧ o.length = onesCount e.mask)
    ∧ (mapping.map (fun e => onesCount e.mask)).sum = gcb := by
  unfold configMemCheckStripped at h
  by_cases hlen : mapping.length ≠ mfpc
  · rw [if_pos hlen] at h; exact Except.noConfusion h
  · rw [if_neg hlen] at h
    push_neg at hlen
    cases hcf : checkFrames fbpr mapping with
    | error msg => simp only [hcf] at h; exact Except.noConfusion h
    | ok total =>
        simp only [hcf] at h
        obtain ⟨htot, hall⟩ := checkFrames_ok hcf
        by_cases hgc : total ≠ gcb
        · rw [if_pos hgc] at h; exact Except.noConfusion h
        · rw [if_neg hgc] at h
          push_neg at hgc
          refine ⟨hlen, ?_, ?_⟩
          · intro e he
            obtain ⟨h1, h2⟩ := hall _ he
            obtain ⟨o, ho, holen⟩ := processEntries_ok h _ he
            exact ⟨h1, h2, o, ho, holen⟩
          · rw [← htot]
            exact hgc

theorem generateConfigMemCheck_ok {fbpr mfpc gcb : Nat} {raw : List CMEntry}
    {v : List Int} (h : generateConfigMemCheck fbpr mfpc gcb raw = Except.ok v) :
    raw.length = mfpc
    ∧ (∀ e ∈ raw, onesCount (stripUnderscores e.mask) ≤ fbpr
        ∧ (stripUnderscores e.mask).length = fbpr
        ∧ ∃ o, parseConfigBitsRanges e.ranges = Except.ok o
            ∧ o.length = onesCount (stripUnderscores e.mask))
    ∧ (raw.map (fun e => onesCount (stripUnderscores e.mask))).sum = gcb := by
  unfold generateConfigMemCheck at h
  obtain ⟨hlen, hall, hsum⟩ := configMemCheckStripped_ok h
  refine ⟨by simpa using hlen, ?_, ?_⟩
  · intro e he
    have hmem : ({ e with mask := stripUnderscores e.mask } : CMEntry)
        ∈ raw.map (fun e => ({ e with mask := stripUnderscores e.mask } : CMEntry)) :=
      List.mem_map_of_mem _ he
    exact hall _ hmem
  · rw [← hsum, List.map_map]
    rfl

/-- C4: the consistency validation of `generateConfigMem` is fatal — the
function cannot return successfully when the mapping file has the wrong row
count, a frame mask of the wrong length or with more ones than
`FrameBitsPerRow`, a used-bit total different from the tile's
`globalConfigBits`, or a frame whose parsed ConfigBits_ranges lists a number
of indices different from the ones in its mask. -/
theorem configMemValidation_fatal (fbpr mfpc gcb : Nat) (raw : List CMEntry)
    (hviol :
      raw.length ≠ mfpc
      ∨ (∃ e ∈ raw, fbpr < onesCount (stripUnderscores e.mask))
      ∨ (∃ e ∈ raw, (stripUnderscores e.mask).length ≠ fbpr)
      ∨ (raw.map (fun e => onesCount (stripUnderscores e.mask))).sum ≠ gcb
      ∨ (∃ e ∈ raw, ∃ o, parseConfigBitsRanges e.ranges = Except.ok o
            ∧ o.length ≠ onesCount (stripUnderscores e.mask))) :
    (generateConfigMemCheck fbpr mfpc gcb raw).isOk = false := by
  cases hres : generateConfigMemCheck fbpr mfpc gcb raw with
  | error msg => rfl
  | ok v =>
      exfalso
      obtain ⟨hlen, hall, hsum⟩ := generateConfigMemCheck_ok hres
      rcases hviol with h | ⟨e, he, h⟩ | ⟨e, he, h⟩ | h | ⟨e, he, o, ho, h⟩
      · exact h hlen
      · obtain ⟨h1, _, _⟩ := hall e he; omega
      · obtain ⟨_, h2, _⟩ := hall e he; exact h h2
      · exact h hsum
      · obtain ⟨_, _, o2, ho2, h3⟩ := hall e he
        rw [ho] at ho2
        injection ho2 with hoo
        subst hoo
        exact h h3

/-- Witness for C4: the validation fails on an empty mapping file when
`MaxFramesPerCol` is 20 (row-count mismatch). -/
theorem configMemValidation_fatal_witness :
    (generateConfigMemCheck 32 20 0 ([] : List CMEntry)).isOk = false :=
  configMemValidation_fatal 32 20 0 [] (Or.inl (by decide))

theorem wireHasNull_false {w : FWire} (hsrc : w.source ≠ "NULL")
    (hdst : w.destination ≠ "NULL") : wireHasNull w = false := by
  simp [wireHasNull, hsrc, hdst]

/-- Counterexample for C8 as stated: the diagonal wire with offsets (1, -1)
is accepted into the graph model as an ordinary routable wire — building the
model raises no error for it. -/
theorem diagonal_counterexample :
    resolveWire ⟨"EAST", "W6BEG", 1, -1, "W6END", 2⟩ "X0Y0" "X1Y0"
      = WireResolution.normal ⟨"EAST", "W6BEG", 1, -1, "W6END", 2⟩ := by decide

/-- C8 (amended): a wire with nonzero offsets in both axes is NOT rejected
when the graph model is built — `genFabricObject` stores unit diagonals in
the tile's ordinary wire list — while the downstream VPR routing-resource
exporter `genVPRModelRRGraph` raises for any such wire. -/
theorem diagonalWires (w : FWire) (tl cl : String)
    (hx : w.xoffset.natAbs ≤ 1) (hy : w.yoffset.natAbs ≤ 1)
    (hxn : w.xoffset ≠ 0) (hyn : w.yoffset ≠ 0)
    (hsrc : w.source ≠ "NULL") (hdst : w.destination ≠ "NULL") :
    resolveWire w tl cl = WireResolution.normal w
    ∧ vprWireDiagonalCheck w
        = Except.error
            "Diagonal wires not currently supported for VPR routing resource model" := by
  constructor
  · unfold resolveWire
    rw [if_pos ⟨hx, hy, by simp [wireHasNull_false hsrc hdst]⟩]
  · unfold vprWireDiagonalCheck
    rw [if_pos ⟨hyn, hxn⟩]

/-- Witness for C8 (amended) at the unit diagonal (1, 1). -/
theorem diagonalWires_witness :
    resolveWire ⟨"NORTH", "NN", 1, 1, "SS", 1⟩ "X0Y0" "X1Y1"
      = WireResolution.normal ⟨"NORTH", "NN", 1, 1, "SS", 1⟩
    ∧ vprWireDiagonalCheck ⟨"NORTH", "NN", 1, 1, "SS", 1⟩
        = Except.error
            "Diagonal wires not currently supported for VPR routing resource model" :=
  diagonalWires ⟨"NORTH", "NN", 1, 1, "SS", 1⟩ "X0Y0" "X1Y1"
    (by decide) (by decide) (by decide) (by decide) (by decide) (by decide)

theorem frameAssignGo_fst_subset (frameIndex : Nat) :
    ∀ (mask : List Char) (i : Nat) (rs : List Nat) (p : Nat × Int),
      p ∈ frameAssignGo frameIndex mask i rs → p.1 ∈ rs := by
  intro mask
  induction mask with
  | nil => intro i rs p hp; simp [frameAssignGo] at hp
  | cons c cs ih =>
      intro i rs p hp
      by_cases h : c ≠ '0'
      · cases rs with
        | nil => simp [frameAssignGo, if_pos h] at hp
        | cons r rs2 =>
            simp only [frameAssignGo, if_pos h] at hp
            rcases List.mem_cons.mp hp with hp | hp
            · subst hp; exact List.mem_cons_self _ _
            · exact List.mem_cons_of_mem _ (ih (i + 1) rs2 p hp)
      · simp only [frameAssignGo, if_neg h] at hp
        exact ih (i + 1) rs p hp

theorem applyAssigns_get?_of_not_mem {i : Nat} :
    ∀ (pairs : List (Nat × Int)) (d : List Int),
      (∀ p ∈ pairs, p.1 ≠ i) → (applyAssigns d pairs).get? i = d.get? i := by
  intro pairs
  induction pairs with
  | nil => intro d _; rfl
  | cons p ps ih =>
      intro d hp
      unfold applyAssigns at ih ⊢
      simp only [List.foldl_cons]
      rw [ih (d.set p.1 p.2) (fun q hq => hp q (List.mem_cons_of_mem _ hq))]
      exact List.get?_set_ne _ _ (hp p (List.mem_cons_self _ _))

theorem foldFrames_get?_aux (i : Nat) :
    ∀ (frames : List (Nat × List Char × List Nat)) (d : List Int),
      (∀ f ∈ frames, i ∉ f.2.2) →
      (frames.foldl (fun d f => applyAssigns d (frameAssignPairs f.1 f.2.1 f.2.2)) d).get? i
        = d.get? i := by
  intro frames
  induction frames with
  | nil => intro d _; rfl
  | cons f fs ih =>
      intro d habs
      simp only [List.foldl_cons]
      rw [ih _ (fun g hg => habs g (List.mem_cons_of_mem _ hg))]
      apply applyAssigns_get?_of_not_mem
      intro p hp hpi
      have hmem : p.1 ∈ f.2.2 :=
        frameAssignGo_fst_subset f.1 f.2.1 0 f.2.2 p hp
      rw [hpi] at hmem
      exact habs f (List.mem_cons_self _ _) hmem

theorem encodeDictInit_get? {fbpr mfpc i : Nat} (hi : i < fbpr * mfpc) :
    (encodeDictInit fbpr mfpc).get? i = some (-1) := by
  unfold encodeDictInit
  rw [List.get?_eq_getElem?, List.getElem?_replicate, if_pos hi]

/-- C10 (amended): `genBitstreamSpec` initializes every entry of
`encodeDict` to -1, and a logical bit index inside the array that no frame's
configBitRanges ever lists is still -1 after the build; the feature table
silently records that -1 as the physical bit index.  (An absent logical
index at or beyond `frameBitsPerRow * maxFramesPerCol` instead raises
IndexError when read, as the counterexample shows.) -/
theorem encodeSentinel (fbpr mfpc : Nat) (frames : List (Nat × List Char × List Nat))
    (i : Nat) (hi : i < fbpr * mfpc) (habs : ∀ f ∈ frames, i ∉ f.2.2) :
    encodeLookup (buildEncodeDict fbpr mfpc frames) i = some (-1)
    ∧ belFeatureEntry (buildEncodeDict fbpr mfpc frames) i = some (-1, '1') := by
  have h := foldFrames_get?_aux i frames (encodeDictInit fbpr mfpc) habs
  have h2 : encodeLookup (buildEncodeDict fbpr mfpc frames) i = some (-1) := by
    unfold encodeLookup buildEncodeDict
    rw [h, encodeDictInit_get? hi]
  refine ⟨h2, ?_⟩
  unfold belFeatureEntry
  rw [h2]
  rfl

/-- Witness for C10 (amended): with `frameBitsPerRow = 2`,
`maxFramesPerCol = 1` and one frame listing only logical bit 0, the
unlisted in-range logical bit 1 reads back -1 and the bel feature silently
keys on -1. -/
theorem encodeSentinel_witness :
    encodeLookup (buildEncodeDict 2 1 [(0, ['1', '0'], [0])]) 1 = some (-1)
    ∧ belFeatureEntry (buildEncodeDict 2 1 [(0, ['1', '0'], [0])]) 1 = some (-1, '1') :=
  encodeSentinel 2 1 [(0, ['1', '0'], [0])] 1 (by decide) (by decide)

/-- Counterexample for C10 as stated: logical index 2 is absent from every
frame's configBitRanges, but it lies outside the encodeDict array
(`frameBitsPerRow * maxFramesPerCol = 2`), so the Python read raises
IndexError (`none`) instead of silently yielding -1. -/
theorem encodeSentinel_counterexample :
    buildEncodeDict 2 1 [] = [-1, -1]
    ∧ encodeLookup (buildEncodeDict 2 1 []) 2 = none := by
  exact ⟨rfl, rfl⟩

theorem cascadeSegments_mem_seg {dir src dst tl cl : String} {sx sy : Int}
    {wc m i : Nat} (hi : i < wc * m) :
    ({ direction := dir, source := src ++ toString i, xoffset := sx, yoffset := sy,
       destination := dst ++ toString (cascStep wc m i),
       sourceTile := tl, destTile := cl } : AtomicWire)
      ∈ cascadeSegments dir src dst sx sy wc m tl cl := by
  unfold cascadeSegments
  rw [List.mem_flatMap]
  refine ⟨i, List.mem_range.mpr hi, ?_⟩
  simp

theorem cascadeSegments_mem_jump {dir src dst tl cl : String} {sx sy : Int}
    {wc m i : Nat} (hge : wc ≤ i) (hi : i < wc * m) :
    ({ direction := "JUMP", source := dst ++ toString i, xoffset := 0, yoffset := 0,
       destination := src ++ toString i,
       sourceTile := tl, destTile := tl } : AtomicWire)
      ∈ cascadeSegments dir src dst sx sy wc m tl cl := by
  unfold cascadeSegments
  rw [List.mem_flatMap]
  refine ⟨i, List.mem_range.mpr hi, ?_⟩
  rw [if_neg (by omega)]
  simp

theorem chainIdx_formula {wc m j : Nat} (hj : j < wc) :
    ∀ k, 1 ≤ k → k ≤ m → chainIdx wc m j k = j + wc * (m - k) := by
  intro k
  induction k with
  | zero => intro h1 _; omega
  | succ k ih =>
      intro _ h2
      by_cases hk0 : k = 0
      · subst hk0
        show cascStep wc m (chainIdx wc m j 0) = j + wc * (m - 1)
        simp only [chainIdx, cascStep, if_pos hj]
      · have hik := ih (by omega) (by omega)
        show cascStep wc m (chainIdx wc m j k) = j + wc * (m - (k + 1))
        rw [hik]
        unfold cascStep
        have h4 : wc ≤ wc * (m - k) := Nat.le_mul_of_pos_right wc (by omega)
        rw [if_neg (by omega)]
        have h5 : m - k = (m - k - 1) + 1 := by omega
        have hmul : wc * (m - k) = wc * (m - k - 1) + wc := by
          conv_lhs => rw [h5]
          rw [Nat.mul_succ]
        have h6 : m - (k + 1) = m - k - 1 := by omega
        rw [h6]
        omega

theorem chainIdx_final {wc m j : Nat} (hj : j < wc) (hm : 1 ≤ m) :
    chainIdx wc m j m = j := by
  have h := chainIdx_formula hj m hm (le_refl m)
  simpa using h

theorem chainIdx_lt {wc m j : Nat} (hj : j < wc) (hm : 2 ≤ m) :
    ∀ k, k < m → chainIdx wc m j k < wc * m := by
  intro k hk
  have hwcm : wc ≤ wc * m := Nat.le_mul_of_pos_right wc (by omega)
  by_cases hk0 : k = 0
  · subst hk0
    show j < wc * m
    omega
  · rw [chainIdx_formula hj k (by omega) (by omega)]
    have hle : wc * (m - k) ≤ wc * (m - 1) := Nat.mul_le_mul_left wc (by omega)
    have hm1 : m = (m - 1) + 1 := by omega
    have hsplit : wc * m = wc * (m - 1) + wc := by
      conv_lhs => rw [hm1]
      rw [Nat.mul_succ]
    omega

/-- C7 (amended): for a non-NULL axis-aligned wire with `xoffset = m ≥ 2`
and `yoffset = 0`, `genFabricObject` replaces the wire by cascaded atomic
unit segments: expanded bundle wire `j` (with `j < wireCount`, a logical
launch index) traverses exactly `m` segments of offset (1, 0) — arrival
index after `k` hops given by `chainIdx` — with a pass-through JUMP on each
of the `m - 1` intermediate tiles (arrival indices at least `wireCount`
there), and after `m` hops the index is `j` again, so the final destination
port keeps the logical name `destination ++ toString j`. -/
theorem cascadeChain (w : FWire) (tl cl : String) (m wc j k : Nat)
    (hx : w.xoffset = (m : Int)) (hy : w.yoffset = 0) (hm : 2 ≤ m)
    (hwc : w.wireCount = wc) (hj : j < wc)
    (hsrc : w.source ≠ "NULL") (hdst : w.destination ≠ "NULL") :
    resolveWire w tl cl
        = WireResolution.cascaded
            (cascadeSegments w.direction w.source w.destination 1 0 wc m tl cl)
    ∧ chainIdx wc m j 0 = j
    ∧ chainIdx wc m j m = j
    ∧ (k < m →
        ({ direction := w.direction,
           source := w.source ++ toString (chainIdx wc m j k),
           xoffset := 1, yoffset := 0,
           destination := w.destination ++ toString (chainIdx wc m j (k + 1)),
           sourceTile := tl, destTile := cl } : AtomicWire)
          ∈ cascadeSegments w.direction w.source w.destination 1 0 wc m tl cl)
    ∧ (1 ≤ k → k < m →
        wc ≤ chainIdx wc m j k
        ∧ ({ direction := "JUMP",
             source := w.destination ++ toString (chainIdx wc m j k),
             xoffset := 0, yoffset := 0,
             destination := w.source ++ toString (chainIdx wc m j k),
             sourceTile := tl, destTile := tl } : AtomicWire)
          ∈ cascadeSegments w.direction w.source w.destination 1 0 wc m tl cl) := by
  have hnull : wireHasNull w = false := wireHasNull_false hsrc hdst
  have habs : w.xoffset.natAbs = m := by rw [hx]; exact Int.natAbs_ofNat m
  refine ⟨?_, rfl, chainIdx_final hj (by omega), ?_, ?_⟩
  · unfold resolveWire
    rw [if_neg (by intro hcon; rw [habs] at hcon; omega)]
    rw [if_pos (by simp [hnull])]
    rw [if_pos (by rw [hx]; intro hz; rw [Nat.cast_eq_zero] at hz; omega)]
    rw [if_pos (by rw [hx]; exact_mod_cast (by omega : 1 < m))]
    rw [hy, hwc, habs]
  · intro hkm
    have hi := chainIdx_lt hj hm k hkm
    exact cascadeSegments_mem_seg hi
  · intro hk1 hkm
    have hgew : wc ≤ chainIdx wc m j k := by
      rw [chainIdx_formula hj k hk1 (by omega)]
      have h4 : wc ≤ wc * (m - k) := Nat.le_mul_of_pos_right wc (by omega)
      omega
    exact ⟨hgew, cascadeSegments_mem_jump hgew (chainIdx_lt hj hm k hkm)⟩

/-- Witness for C7 (amended): a wire bundle of 2 wires spanning 3 tiles in
x; bundle wire 1 at hop 1. -/
theorem cascadeChain_witness :
    resolveWire ⟨"EAST", "E6BEG", 3, 0, "E6END", 2⟩ "X0Y0" "X1Y0"
        = WireResolution.cascaded
            (cascadeSegments "EAST" "E6BEG" "E6END" 1 0 2 3 "X0Y0" "X1Y0")
    ∧ chainIdx 2 3 1 0 = 1
    ∧ chainIdx 2 3 1 3 = 1
    ∧ (1 < 3 →
        ({ direction := "EAST", source := "E6BEG" ++ toString (chainIdx 2 3 1 1),
           xoffset := 1, yoffset := 0,
           destination := "E6END" ++ toString (chainIdx 2 3 1 2),
           sourceTile := "X0Y0", destTile := "X1Y0" } : AtomicWire)
          ∈ cascadeSegments "EAST" "E6BEG" "E6END" 1 0 2 3 "X0Y0" "X1Y0")
    ∧ (1 ≤ 1 → 1 < 3 →
        2 ≤ chainIdx 2 3 1 1
        ∧ ({ direction := "JUMP", source := "E6END" ++ toString (chainIdx 2 3 1 1),
             xoffset := 0, yoffset := 0,
             destination := "E6BEG" ++ toString (chainIdx 2 3 1 1),
             sourceTile := "X0Y0", destTile := "X0Y0" } : AtomicWire)
          ∈ cascadeSegments "EAST" "E6BEG" "E6END" 1 0 2 3 "X0Y0" "X1Y0") :=
  cascadeChain ⟨"EAST", "E6BEG", 3, 0, "E6END", 2⟩ "X0Y0" "X1Y0" 3 2 1 1
    rfl rfl (by decide) rfl (by decide) (by decide) (by decide)

/-- Counterexample for C7 as stated: the wire with offsets (1, 1) has
magnitude `m = |xOffset| + |yOffset| = 2 > 1` but is NOT replaced by atomic
unit segments — the graph model keeps it whole as an ordinary wire. -/
theorem cascade_counterexample :
    resolveWire ⟨"NORTH", "N1BEG", 1, 1, "N1END", 1⟩ "X0Y0" "X1Y1"
      = WireResolution.normal ⟨"NORTH", "N1BEG", 1, 1, "N1END", 1⟩ := by decide

end FABulous
